import Mathlib

/-!
Verification development for the nhh-esperanto record-linkage pipeline.

The Python sources under scrutiny are `merge_datasets.py`,
`enhance_dataset.py` and the scripts `match_missing_ids.py`,
`rematch_with_unix_time.py`, `aggressive_rematching.py` and
`create_final_consolidated_dataset.py`.  Each Lean definition below is a
shallow embedding of one of those functions: strings become `List Char`,
pandas rows become structures, floating-point times become `ℚ`, a
`NaN`/missing value becomes `Option`, and Python exceptions become
`Except`.  Regular-expression searches are embedded as explicit
left-to-right scanners whose alternative order mirrors the backtracking
priority of CPython's `re` module.
-/

namespace Esperanto

/-! ## Character helpers shared by the regex scanners -/

/-- Whitespace test modelling the regex class backslash-s
(ASCII scope, which covers all data in this repository). -/
def isSpaceC (c : Char) : Bool :=
  c = ' ' ∨ c = '\t' ∨ c = '\n' ∨ c = '\r' ∨ c = '\x0b' ∨ c = '\x0c'

/-- Word-character test modelling the regex class backslash-w
(ASCII scope), used by the word-boundary assertions of pattern 5. -/
def isWordCharB (c : Char) : Bool :=
  c.isAlphanum ∨ c = '_'

/-- Take exactly `n` characters, all of which must be decimal digits;
models a fixed-count digit group in a regex. -/
def takeCountDigits : Nat → List Char → Option (List Char × List Char)
  | 0, s => some ([], s)
  | _ + 1, [] => none
  | n + 1, c :: r =>
    if c.isDigit then (takeCountDigits n r).map (fun p => (c :: p.1, p.2)) else none

/-- Expect a literal character sequence; models literal text in a regex. -/
def expectLit : List Char → List Char → Option (List Char)
  | [], s => some s
  | _ :: _, [] => none
  | c :: l, d :: s => if c = d then expectLit l s else none

/-- Try each candidate in priority order, keeping the first for which the
continuation succeeds; models regex backtracking over alternatives. -/
def firstSome : List α → (α → Option β) → Option β
  | [], _ => none
  | a :: t, k =>
    match k a with
    | some b => some b
    | none => firstSome t k

/-- Candidate splits for a greedy one-or-two-digit group: the two-digit
reading is tried before the one-digit reading. -/
def d12Cands : List Char → List (List Char × List Char)
  | c1 :: c2 :: r =>
    if c1.isDigit ∧ c2.isDigit then [([c1, c2], r), ([c1], c2 :: r)]
    else if c1.isDigit then [([c1], c2 :: r)]
    else []
  | [c1] => if c1.isDigit then [([c1], [])] else []
  | [] => []

/-- Candidate splits for a greedy two-to-four-digit group (year field of
pattern 4): four digits tried first, then three, then two. -/
def y24Cands (s : List Char) : List (List Char × List Char) :=
  let cand : Nat → List (List Char × List Char) := fun k =>
    match takeCountDigits k s with
    | some p => [p]
    | none => []
  cand 4 ++ cand 3 ++ cand 2

/-- Lazy gap: models a non-greedy dot-star that may not cross a newline
(the dot of Python's `re` does not match a newline); the continuation is
tried at the shortest gap first. -/
def gapScan (k : List Char → Option β) : List Char → Option β
  | [] => k []
  | c :: r =>
    match k (c :: r) with
    | some b => some b
    | none => if c = '\n' then none else gapScan k r

/-- Left-to-right search driver: try the matcher at every suffix,
leftmost match wins; models `re.search` for patterns without
look-behind. -/
def scanOpt (f : List Char → Option β) : List Char → Option β
  | [] => f []
  | c :: r =>
    match f (c :: r) with
    | some b => some b
    | none => scanOpt f r

/-! ## `extract_user_id_from_message` (merge_datasets.py, lines 143-185)

The function tries five patterns in order and returns the first hit:

1. `USER_ID_PATTERN`: two digits, two digits, four digits, underscore,
   four digits, underscore, the literal `Participant`, one or more digits.
2. `ALTERNATIVE_ID_PATTERN`: literal `ID`, optional whitespace-`is`,
   optional whitespace, optional colon or dash, optional whitespace,
   one or more digits.
3. `Participant` (either case of the initial letter) followed by optional
   whitespace and one or more digits.
4. A slash- or dash-delimited date, a lazy gap, and an `HH:MM`-style time
   (separator colon, dot or the letter h, case-insensitive).
5. Any standalone run of one to four digits between word boundaries.

No component of any pattern is range-checked anywhere in the source. -/

/-- Pattern 1 matcher at a fixed position. -/
def matchP1At (s : List Char) : Option (List Char) :=
  (takeCountDigits 2 s).bind fun p1 =>
  (takeCountDigits 2 p1.2).bind fun p2 =>
  (takeCountDigits 4 p2.2).bind fun p3 =>
  (expectLit ['_'] p3.2).bind fun r4 =>
  (takeCountDigits 4 r4).bind fun p5 =>
  (expectLit ['_'] p5.2).bind fun r6 =>
  (expectLit "Participant".data r6).bind fun r7 =>
  let pn := r7.takeWhile Char.isDigit
  if pn.isEmpty then none
  else some (p1.1 ++ p2.1 ++ p3.1 ++ ['_'] ++ p5.1 ++ ['_'] ++ "Participant".data ++ pn)

/-- Shared tail of pattern 2: optional whitespace, optional colon or
dash, optional whitespace, then one or more digits (the captured group). -/
def p2Tail (r : List Char) : Option (List Char) :=
  let r2 := r.dropWhile isSpaceC
  let r3 := match r2 with
    | ':' :: t => t
    | '-' :: t => t
    | _ => r2
  let r4 := r3.dropWhile isSpaceC
  let pn := r4.takeWhile Char.isDigit
  if pn.isEmpty then none else some pn

/-- Pattern 2 matcher at a fixed position: literal `ID`, then the
optional whitespace-`is` group (tried first, as the regex is greedy),
then the shared tail. -/
def matchP2At (s : List Char) : Option (List Char) :=
  (expectLit ['I', 'D'] s).bind fun r0 =>
  let ws := r0.takeWhile isSpaceC
  let withIs : Option (List Char) :=
    if ws.isEmpty then none else expectLit ['i', 's'] (r0.drop ws.length)
  match withIs with
  | some r1 =>
    match p2Tail r1 with
    | some pn => some pn
    | none => p2Tail r0
  | none => p2Tail r0

/-- Pattern 3 matcher at a fixed position: `Participant` with either
case of the initial letter, optional whitespace, digits; the result is
normalized with a capital P as in the source f-string. -/
def matchP3At (s : List Char) : Option (List Char) :=
  match s with
  | [] => none
  | c :: r =>
    if c = 'P' ∨ c = 'p' then
      (expectLit "articipant".data r).bind fun r1 =>
      let r2 := r1.dropWhile isSpaceC
      let pn := r2.takeWhile Char.isDigit
      if pn.isEmpty then none else some ("Participant".data ++ pn)
    else none

/-- Date separator class of pattern 4. -/
def sepDash (c : Char) : Bool := c = '-' ∨ c = '/'

/-- Time separator class of pattern 4 (case-insensitive `h`). -/
def sepTime (c : Char) : Bool := c = ':' ∨ c = '.' ∨ c = 'h' ∨ c = 'H'

/-- Pattern 4 matcher at a fixed position.  The assembled result keeps
the components unpadded exactly as the source f-string does, widening a
two-digit year with a leading `20`. -/
def matchP4At (s : List Char) : Option (List Char) :=
  firstSome (d12Cands s) fun pd =>
  match pd.2 with
  | c :: r2 =>
    if sepDash c then
      firstSome (d12Cands r2) fun pm =>
      match pm.2 with
      | c2 :: r4 =>
        if sepDash c2 then
          firstSome (y24Cands r4) fun py =>
          gapScan (fun r6 =>
            firstSome (d12Cands r6) fun ph =>
            match ph.2 with
            | c3 :: r8 =>
              if sepTime c3 then
                firstSome (d12Cands r8) fun pmin =>
                some (pd.1 ++ pm.1 ++
                  (if py.1.length = 2 then ['2', '0'] ++ py.1 else py.1) ++
                  ['_'] ++ ph.1 ++ pmin.1)
              else none
            | [] => none) py.2
        else none
      | [] => none
    else none
  | [] => none

/-- Word-boundary test against the character following a digit run. -/
def p5AfterOk : List Char → Bool
  | [] => true
  | c :: _ => ¬ isWordCharB c

/-- Greedy backtracking over the length of the digit group of pattern 5:
the longest reading (up to four digits) is tried first. -/
def p5TryLens : Nat → List Char → Option (List Char)
  | 0, _ => none
  | k + 1, s =>
    let ds := s.take (k + 1)
    if ds.length = k + 1 ∧ ds.all Char.isDigit ∧ p5AfterOk (s.drop (k + 1))
    then some ds else p5TryLens k s

/-- Word-boundary test against the character preceding a digit run: a
digit is a word character, so the boundary holds exactly when the
previous character is absent or not a word character. -/
def p5PrevOk : Option Char → Bool
  | none => true
  | some c => ¬ isWordCharB c

/-- Pattern 5 matcher at a fixed position, given the preceding
character (for the leading word boundary). -/
def p5TryAt (prev : Option Char) (s : List Char) : Option (List Char) :=
  if p5PrevOk prev then
    p5TryLens (min 4 (s.takeWhile Char.isDigit).length) s
  else none

/-- Search driver for pattern 5, threading the previous character for
the word-boundary assertion. -/
def scanP5 (prev : Option Char) : List Char → Option (List Char)
  | [] => none
  | c :: r =>
    match p5TryAt prev (c :: r) with
    | some ds => some ds
    | none => scanP5 (some c) r

/-- Embedding of `extract_user_id_from_message` (merge_datasets.py):
empty input is falsy and yields `none`; otherwise the five patterns are
searched in order and the first hit is returned. -/
def extractUserIdFromMessage (msg : List Char) : Option (List Char) :=
  if msg.isEmpty then none
  else
    match scanOpt matchP1At msg with
    | some r => some r
    | none =>
      match scanOpt matchP2At msg with
      | some r => some r
      | none =>
        match scanOpt matchP3At msg with
        | some r => some r
        | none =>
          match scanOpt matchP4At msg with
          | some r => some r
          | none => scanP5 none msg

/-- Lifting to an optional message, as the caller passes the result of
`extract_first_user_message`, which may be `None`. -/
def extractUserIdOpt (msg : Option (List Char)) : Option (List Char) :=
  match msg with
  | none => none
  | some s => extractUserIdFromMessage s

example : extractUserIdFromMessage "21".data = some "21".data := by decide
example : extractUserIdFromMessage "login".data = none := by decide
example : extractUserIdFromMessage "13132024_1200_Participant5".data
    = some "13132024_1200_Participant5".data := by decide
example : extractUserIdFromMessage "My ID is 03122024_1000_Participant6".data
    = some "03122024_1000_Participant6".data := by decide

/-! ## Data model

Pandas rows become structures.  A float timestamp becomes `ℚ`; a missing
or `NaN` value becomes `Option`. -/

/-- One row of the survey / finalized table (the fields the matching
scripts read and write). -/
structure SurveyRow where
  responseId : String
  startTimeUnix : Option ℤ := none
  conversationId : Option String := none
  createTime : Option ℤ := none
  userId : Option String := none
  matchMethod : Option String := none
  hasMatch : Bool := false
  deriving DecidableEq, Repr

/-- One row of the message-level conversation table
(`unified_conversation_data.csv`). -/
structure ConvMsg where
  conversationId : String
  authorRole : String
  messageContent : String
  createTime : ℤ
  deriving DecidableEq, Repr

/-! ## Kernel-computable rational helpers

Python's `abs`, `max`, `min`, `round` and floor operations on floats are
modelled with explicit case splits on `ℚ` so that concrete inputs
evaluate inside the kernel. -/

/-- Absolute value (`abs`) on integer seconds. -/
def intAbs (i : ℤ) : ℤ := if i < 0 then -i else i

/-- Absolute value (`abs`). -/
def ratAbs (q : ℚ) : ℚ := if q < 0 then -q else q

/-- Binary maximum (`max`). -/
def ratMax (a b : ℚ) : ℚ := if a ≤ b then b else a

/-- Binary minimum (`min`). -/
def ratMin (a b : ℚ) : ℚ := if a ≤ b then a else b

/-- Floor to an integer. -/
def ratFloor (q : ℚ) : ℤ := Int.fdiv q.num q.den

/-! ## Calendar arithmetic

`datetime.fromtimestamp` / `datetime.timestamp` are modelled with the
standard civil-date conversion, under a single fixed (UTC) timezone
convention; the spec itself notes that the source's timezone handling is
ambiguous, and every concrete input below is chosen so that the verdict
does not depend on the timezone offset. -/

/-- Days since the Unix epoch for a civil date (floor-division
formulation of the usual civil-from-days inverse). -/
def daysFromCivil (y m d : Int) : Int :=
  let y' := if m ≤ 2 then y - 1 else y
  let era := Int.fdiv y' 400
  let yoe := y' - era * 400
  let mp := if m > 2 then m - 3 else m + 9
  let doy := Int.fdiv (153 * mp + 2) 5 + d - 1
  let doe := yoe * 365 + Int.fdiv yoe 4 - Int.fdiv yoe 100 + doy
  era * 146097 + doe - 719468

/-- Civil date (year, month, day) from days since the Unix epoch. -/
def civilFromDays (z0 : Int) : Int × Int × Int :=
  let z := z0 + 719468
  let era := Int.fdiv z 146097
  let doe := z - era * 146097
  let yoe := Int.fdiv (doe - Int.fdiv doe 1460 + Int.fdiv doe 36524 - Int.fdiv doe 146096) 365
  let y := yoe + era * 400
  let doy := doe - (365 * yoe + Int.fdiv yoe 4 - Int.fdiv yoe 100)
  let mp := Int.fdiv (5 * doy + 2) 153
  let d := doy - Int.fdiv (153 * mp + 2) 5 + 1
  let m := if mp < 10 then mp + 3 else mp - 9
  (if m ≤ 2 then y + 1 else y, m, d)

/-- Calendar day key of a timestamp: models grouping by the
`%Y-%m-%d` rendering of `datetime.fromtimestamp`. -/
def dayKeyOf (t : ℤ) : Int := Int.fdiv t 86400

/-- Civil fields (year, month, day, hour, minute) of a timestamp,
modelling `datetime.fromtimestamp` down to minute resolution. -/
def civilMinOf (t : ℤ) : Int × Int × Int × Int × Int :=
  let s := t
  let days := Int.fdiv s 86400
  let rem := s - days * 86400
  let c := civilFromDays days
  (c.1, c.2.1, c.2.2, Int.fdiv rem 3600, Int.fdiv (Int.fmod rem 3600) 60)

/-- Render an integer zero-padded to two characters, as the `{:02d}`
format directive does for the values in range here. -/
def pad2 (n : Int) : String :=
  if 0 ≤ n ∧ n < 10 then "0" ++ toString n else toString n

/-- The f-string `DDMMYYYY_HHMM` prefix used for derived and generated
identifiers. -/
def stampPrefix (t : ℤ) : String :=
  let c := civilMinOf t
  pad2 c.2.2.1 ++ pad2 c.2.1 ++ toString c.1 ++ "_" ++ pad2 c.2.2.2.1 ++ pad2 c.2.2.2.2

/-- `generate_user_id` (rematch_with_unix_time.py, lines 41-47). -/
def generateUserId (t : ℤ) : String := stampPrefix t ++ "_Generated"

/-- The derived identifier built by `match_by_timestamp`
(merge_datasets.py, lines 402-403) when no identifier is extracted. -/
def derivedUserId (t : ℤ) : String := stampPrefix t ++ "_Derived"

example : stampPrefix 1000 = "01011970_0016" := by decide

/-! ## Confidence scorers

Three distinct scorers appear in the sources; none of them special-cases
the explicit-identifier method. -/

/-- Round to two decimal places (`round(x, 2)`); ties cannot arise at
any value these scorers produce from the inputs used below, so the
rounding direction at a half is immaterial here. -/
def round2 (q : ℚ) : ℚ := (ratFloor (q * 100 + 1/2) : ℤ) / 100

/-- The per-row confidence of `clean_dataset` (merge_datasets.py, lines
651-672): `timestamp_diff` is the absolute gap when `create_time` is
present, else missing; the score is
`round(max(0, 100 - min(99, diff / (86400 / 10))), 2)` for present
gaps and `0` otherwise — the row's `MatchMethod` is never consulted. -/
def cleanMatchConfidence (startTime : Option ℤ) (createTime : Option ℤ) : ℚ :=
  match startTime, createTime with
  | some st, some ct => round2 (ratMax 0 (100 - ratMin 99 ((intAbs (st - ct) : ℚ) / 8640)))
  | _, _ => 0

/-- The scorer of `match_by_extended_timestamp` (match_missing_ids.py,
line 232): `max(0, 100 - time_diff_minutes / 10)`, unrounded. -/
def extConfidence (d : ℚ) : ℚ := ratMax 0 (100 - (d / 60) / 10)

/-- The scorer of `create_optimal_matching` (rematch_with_unix_time.py,
line 225): `max(0, 100 - time_diff_seconds / 3600)`, unrounded. -/
def rematchConfidence (d : ℚ) : ℚ := ratMax 0 (100 - d / 3600)

/-- The confidence formula as the spec words it: clamp to the unit
interval of percentages and round.  Modelled from the spec for
comparison with the source scorers (claim C2). -/
def specClampConfidence (d scale : ℚ) : ℚ :=
  round2 (ratMin 100 (ratMax 0 (100 - 100 * d / scale)))

/-- Row-level application of the `clean_dataset` scorer: the lambda in
the source reads only `timestamp_diff` (derived from `start_time_unix`
and `create_time`); the row's `MatchMethod` does not enter. -/
def cleanRowConfidence (row : SurveyRow) : ℚ :=
  cleanMatchConfidence row.startTimeUnix row.createTime

/-! ## `match_by_extended_timestamp` (match_missing_ids.py, lines 177-240)

For each unmatched conversation the closest unmatched survey response
within a 48-hour window is recorded; the chosen survey row is not
removed from the pool before the next conversation is processed. -/

/-- One row of the unmatched-conversations frame built by
`find_unmatched_conversations`. -/
structure ConvDetail where
  conversationId : String
  createTime : ℤ
  firstUserMessage : List Char
  deriving DecidableEq, Repr

/-- One record appended to the `matches` list by
`match_by_extended_timestamp`. -/
structure ExtMatch where
  conversationId : String
  responseId : String
  createTime : ℤ
  surveyStartTime : Option ℤ
  timeDiffMinutes : ℚ
  matchConfidence : ℚ
  deriving DecidableEq, Repr

/-- Closest row by absolute time difference within `tol`, first row
winning ties (`nsmallest(1, 'time_diff')` keeps the first occurrence);
rows without a numeric timestamp never qualify, as a `NaN` difference
fails every comparison. -/
def bestByDiff (pool : List SurveyRow) (t tol : ℤ) : Option (SurveyRow × ℤ) :=
  pool.foldl
    (fun best row =>
      match row.startTimeUnix with
      | none => best
      | some st =>
        let d := intAbs (st - t)
        if d ≤ tol then
          match best with
          | none => some (row, d)
          | some b => if d < b.2 then some (row, d) else best
        else best)
    none

/-- The unmatched-survey pool of `match_by_extended_timestamp`: rows
with a missing or empty `conversation_id` or `HasMatch == False`. -/
def extUnmatchedSurveys (finalized : List SurveyRow) : List SurveyRow :=
  finalized.filter fun r =>
    r.conversationId = none ∨ r.conversationId = some "" ∨ r.hasMatch = false

/-- The record built for one conversation (if any survey is in range). -/
def extMatchFor (pool : List SurveyRow) (conv : ConvDetail) : Option ExtMatch :=
  (bestByDiff pool conv.createTime 172800).map fun b =>
    { conversationId := conv.conversationId
      responseId := b.1.responseId
      createTime := conv.createTime
      surveyStartTime := b.1.startTimeUnix
      timeDiffMinutes := (b.2 : ℚ) / 60
      matchConfidence := extConfidence (b.2 : ℚ) }

/-- Embedding of `match_by_extended_timestamp`: a pure map over the
unmatched conversations against a pool that is never shrunk. -/
def matchByExtendedTimestamp (convs : List ConvDetail) (finalized : List SurveyRow) :
    List ExtMatch :=
  convs.filterMap (extMatchFor (extUnmatchedSurveys finalized))

/-! ## `extract_first_user_message` and `match_by_explicit_id`
(merge_datasets.py, lines 108-140 and 249-302) -/

/-- Strip the array-like wrapper from a message: content of the form
bracket-quote ... quote-bracket loses its first and last two
characters. -/
def stripArrayWrapper (s : List Char) : List Char :=
  if s.take 2 = ['[', '\''] ∧ s.reverse.take 2 = [']', '\''] then
    (s.drop 2).dropLast.dropLast
  else s

/-- Embedding of `extract_first_user_message`: the first row (in table
order) of the conversation with `author_role == 'user'`, unwrapped. -/
def extractFirstUserMessage (cid : String) (msgs : List ConvMsg) : Option (List Char) :=
  (msgs.find? fun m => m.conversationId = cid ∧ m.authorRole = "user").map
    fun m => stripArrayWrapper m.messageContent.data

/-- The `create_time` taken for a conversation: the first message row
bearing its id. -/
def convCreateTime (cid : String) (msgs : List ConvMsg) : Option ℤ :=
  (msgs.find? fun m => m.conversationId = cid).map fun m => m.createTime

/-- Substring containment over character lists (the Python `in`
operator on strings). -/
def containsSub (hay needle : List Char) : Bool :=
  decide (needle <:+: hay)

/-- Update the first row satisfying the predicate, leaving the rest
unchanged (the inner `for ... break` of `match_by_explicit_id`). -/
def updateFirstRow (rows : List SurveyRow) (p : SurveyRow → Bool) (f : SurveyRow → SurveyRow) :
    List SurveyRow :=
  match rows with
  | [] => []
  | r :: t => if p r then f r :: t else r :: updateFirstRow t p f

/-- One conversation step of `match_by_explicit_id`: extract a stated
identifier from the first user message and, if present, stamp the first
survey row whose `ResponseId` contains it or is contained in it.  The
row is stamped whether or not it already carries a match. -/
def explicitIdStep (msgs : List ConvMsg) (rows : List SurveyRow) (cid : String) :
    List SurveyRow :=
  match extractUserIdOpt (extractFirstUserMessage cid msgs) with
  | none => rows
  | some sid =>
    let ct := convCreateTime cid msgs
    updateFirstRow rows
      (fun row => row.responseId ≠ "" ∧ sid ≠ [] ∧
        (containsSub row.responseId.data sid ∨ containsSub sid row.responseId.data))
      (fun row =>
        { row with conversationId := some cid, createTime := ct,
                   userId := some (String.mk sid), matchMethod := some "ExplicitID" })

/-- Embedding of `match_by_explicit_id`: fold the step over the unique
conversation ids (match columns start out cleared, as the source
re-initializes them on its copy). -/
def matchByExplicitId (surveys : List SurveyRow) (msgs : List ConvMsg)
    (convIds : List String) : List SurveyRow :=
  let cleared := surveys.map fun r =>
    { r with conversationId := none, createTime := none, userId := none, matchMethod := none }
  convIds.foldl (explicitIdStep msgs) cleared

/-! ## `match_by_timestamp` (merge_datasets.py, lines 305-470)

Surveys still unmatched after the explicit-identifier phase are grouped
by calendar day and each is assigned the closest conversation of that
day within a 24-hour tolerance; a second pass sweeps the remaining
surveys against all remaining conversations.  Assigned conversations are
removed from the pools as they are consumed. -/

/-- Replace the element at a position, leaving every other position
unchanged (the `result_data.at[idx, ...] = ...` writes). -/
def updateAt : List α → Nat → (α → α) → List α
  | [], _, _ => []
  | a :: t, 0, f => f a :: t
  | a :: t, n + 1, f => a :: updateAt t n f

/-- `conversation_id` missing at a position. -/
def cidNoneAt (rows : List SurveyRow) (i : Nat) : Bool :=
  match rows.get? i with
  | some r => r.conversationId = none
  | none => false

/-- `start_time_unix` at a position. -/
def startAt (rows : List SurveyRow) (i : Nat) : Option ℤ :=
  match rows.get? i with
  | some r => r.startTimeUnix
  | none => none

/-- Positions of the rows with no conversation assigned, in table
order. -/
def noneCidIdxs (rows : List SurveyRow) : List Nat :=
  (List.range rows.length).filter (cidNoneAt rows)

/-- Sort order on optional timestamps: numeric values ascending,
missing values last (`sort_values` places `NaN` at the end); ties are
broken by an arbitrary fixed order, as pandas' default quicksort leaves
the order of ties unspecified. -/
def optKeyLeB : Option ℤ → Option ℤ → Bool
  | some x, some y => x ≤ y
  | some _, none => true
  | none, some _ => false
  | none, none => true

/-- The unmatched survey positions paired with their timestamps, sorted
by timestamp. -/
def sortedUnmatchedPairs (rows : List SurveyRow) : List (Nat × Option ℤ) :=
  List.insertionSort (fun a b : Nat × Option ℤ => optKeyLeB a.2 b.2 = true)
    ((noneCidIdxs rows).map fun i => (i, startAt rows i))

/-- Group the sorted unmatched positions by calendar day, preserving
first-appearance order of the days (the `survey_sessions` dict); rows
without a timestamp are skipped. -/
def sessionStep (acc : List (Int × List Nat)) (p : Nat × Option ℤ) :
    List (Int × List Nat) :=
  match p.2 with
  | none => acc
  | some t =>
    let k := dayKeyOf t
    if acc.any (fun g => g.1 = k) then
      acc.map fun g => if g.1 = k then (g.1, g.2 ++ [p.1]) else g
    else acc ++ [(k, [p.1])]

/-- Group the sorted unmatched positions by calendar day. -/
def buildSessions (pairs : List (Nat × Option ℤ)) : List (Int × List Nat) :=
  pairs.foldl sessionStep []

/-- Conversation ids with their creation times, first message row per
id (`drop_duplicates(subset=['conversation_id'])`). -/
def dedupByCid (msgs : List ConvMsg) : List (String × ℤ) :=
  msgs.foldl
    (fun acc m =>
      if acc.any (fun p => p.1 = m.conversationId) then acc
      else acc ++ [(m.conversationId, m.createTime)])
    []

/-- Closest conversation of the candidate dict within tolerance: strict
improvement over the running best, so the first entry wins ties. -/
def bestConvByTimes (convTimes : List (String × ℤ)) (start : ℤ) (tol : ℤ) :
    Option (String × ℤ × ℤ) :=
  convTimes.foldl
    (fun best p =>
      let d := intAbs (start - p.2)
      if d ≤ tol then
        match best with
        | none => some (p.1, p.2, d)
        | some b => if d < b.2.2 then (some (p.1, p.2, d)) else best
      else best)
    none

/-- Working state of the timestamp matcher: the survey table, the
still-available conversation ids and the candidate id-to-time dict. -/
structure TState where
  rows : List SurveyRow
  avail : List String
  convTimes : List (String × ℤ)
  deriving Repr

/-- Process one survey position: find the closest candidate within 24
hours, stamp the row (identifier extracted from the conversation's
first user message, or derived from the survey timestamp) and retire
the conversation from both pools. -/
def processOne (msgs : List ConvMsg) (st : TState) (idx : Nat) : TState :=
  match st.rows.get? idx with
  | none => st
  | some row =>
    match row.startTimeUnix with
    | none => st
    | some s =>
      match bestConvByTimes st.convTimes s 86400 with
      | none => st
      | some best =>
        let uid :=
          match extractUserIdOpt (extractFirstUserMessage best.1 msgs) with
          | some sid => String.mk sid
          | none => derivedUserId s
        { rows := updateAt st.rows idx fun r =>
            { r with conversationId := some best.1, createTime := some best.2.1,
                     userId := some uid, matchMethod := some "Timestamp" }
          avail := st.avail.erase best.1
          convTimes := st.convTimes.eraseP (fun p => p.1 == best.1) }

/-- Process a list of survey positions against a fixed candidate dict. -/
def processGroup (msgs : List ConvMsg) (idxs : List Nat) (st : TState) : TState :=
  idxs.foldl (processOne msgs) st

/-- One calendar-day group of the first pass: the candidate dict is the
deduplicated conversations of that day still available. -/
def pass1Group (msgs : List ConvMsg) (dedup : List (String × ℤ))
    (rc : List SurveyRow × List String) (g : Int × List Nat) :
    List SurveyRow × List String :=
  let dateConvs := dedup.filter fun p => dayKeyOf p.2 = g.1 ∧ rc.2.contains p.1
  let st := processGroup msgs g.2 ⟨rc.1, rc.2, dateConvs⟩
  (st.rows, st.avail)

/-- The initially available conversation ids: those not already carried
by some survey row. -/
def mbtAvail0 (rows : List SurveyRow) (convIds : List String) : List String :=
  convIds.filter fun c => ¬ (rows.filterMap fun r => r.conversationId).contains c

/-- The first, day-grouped pass of `match_by_timestamp` over the sorted
unmatched surveys. -/
def mbtPass1 (rows : List SurveyRow) (msgs : List ConvMsg) (convIds : List String) :
    List SurveyRow × List String :=
  (buildSessions (sortedUnmatchedPairs rows)).foldl
    (pass1Group msgs (dedupByCid msgs)) (rows, mbtAvail0 rows convIds)

/-- The candidate dict of the second pass: every remaining conversation
with its deduplicated creation time. -/
def mbtAllConvTimes (dedup : List (String × ℤ)) (avail : List String) :
    List (String × ℤ) :=
  avail.filterMap fun c => ((dedup.find? fun p => p.1 = c).map fun p => (c, p.2))

/-- Embedding of `match_by_timestamp`: day-grouped first pass over the
sorted unmatched surveys, then a second pass of the still-unmatched
rows (in table order) against every remaining conversation. -/
def matchByTimestamp (rows : List SurveyRow) (msgs : List ConvMsg)
    (convIds : List String) : List SurveyRow :=
  (processGroup msgs (noneCidIdxs (mbtPass1 rows msgs convIds).1)
    ⟨(mbtPass1 rows msgs convIds).1, (mbtPass1 rows msgs convIds).2,
      mbtAllConvTimes (dedupByCid msgs) (mbtPass1 rows msgs convIds).2⟩).rows

/-- Unique conversation ids in first-appearance order
(`conv_data['conversation_id'].unique()`). -/
def uniqueCids (msgs : List ConvMsg) : List String :=
  msgs.foldl
    (fun acc m => if acc.contains m.conversationId then acc else acc ++ [m.conversationId])
    []

/-- The matching core of `align_datasets` (merge_datasets.py, lines
541-580): the explicit-identifier phase followed by the
timestamp-proximity phase. -/
def alignMatch (surveys : List SurveyRow) (msgs : List ConvMsg) : List SurveyRow :=
  let convIds := uniqueCids msgs
  matchByTimestamp (matchByExplicitId surveys msgs convIds) msgs convIds

/-! ## `create_optimal_matching` (rematch_with_unix_time.py, lines 161-243)

Every survey with a timestamp — matched or not — is re-assigned from
scratch: surveys are walked in ascending timestamp order and each takes
the closest still-available valid conversation within seven days. -/

/-- Characters stripped from a message by `strip` with the set
bracket, bracket, quote, double-quote. -/
def isStripChar (c : Char) : Bool :=
  c = '[' ∨ c = ']' ∨ c = '\'' ∨ c = '"'

/-- Python `str.strip` with the set above: remove such characters from
both ends. -/
def stripSetChars (s : List Char) : List Char :=
  ((s.dropWhile isStripChar).reverse.dropWhile isStripChar).reverse

/-- Lower-case a character list (`str.lower`, ASCII scope). -/
def lowerL (s : List Char) : List Char := s.map Char.toLower

/-- The record assembled by `get_conversation_details`. -/
structure GCDetail where
  conversationId : String
  createTime : ℤ
  firstUserMsg : Option (List Char)
  userMsgCount : Nat
  isValid : Bool
  deriving DecidableEq, Repr

/-- Embedding of `get_conversation_details`: `None` when the
conversation has no rows; otherwise creation time from the first row,
first user message stripped of wrapper characters, and the validity
flag, which excludes conversations whose first user message is empty or
lower-cases to the literal `login`. -/
def getConversationDetails (cid : String) (msgs : List ConvMsg) : Option GCDetail :=
  match msgs.filter (fun m => m.conversationId = cid) with
  | [] => none
  | first :: rest =>
    let sub := first :: rest
    let userMsgs := sub.filter fun m => m.authorRole = "user"
    let fum : Option (List Char) :=
      match userMsgs with
      | [] => none
      | u :: _ => some (stripSetChars u.messageContent.data)
    some
      { conversationId := cid
        createTime := first.createTime
        firstUserMsg := fum
        userMsgCount := userMsgs.length
        isValid :=
          (match fum with
           | some f => decide (f ≠ [] ∧ lowerL f ≠ "login".data)
           | none => false) && decide (userMsgs.length > 0) }

/-- The valid conversations, in first-appearance order. -/
def validConvDetails (msgs : List ConvMsg) : List GCDetail :=
  (uniqueCids msgs).filterMap fun cid =>
    (getConversationDetails cid msgs).bind fun d => if d.isValid then some d else none

/-- One record appended to the `matches` list by
`create_optimal_matching`. -/
structure OptMatch where
  responseId : String
  conversationId : String
  surveyTime : ℤ
  convTime : ℤ
  timeDiffSeconds : ℤ
  userId : String
  matchMethod : String
  matchConfidence : ℚ
  deriving DecidableEq, Repr

/-- Loop body of the inner candidate search of
`create_optimal_matching`: keep the running best unless the candidate
strictly improves it within the seven-day cap. -/
def optBestStep (s : ℤ) (best : Option (String × ℤ × ℤ)) (p : String × ℤ) :
    Option (String × ℤ × ℤ) :=
  let d := intAbs (s - p.2)
  match best with
  | none => if d ≤ 604800 then some (p.1, p.2, d) else none
  | some b => if d < b.2.2 ∧ d ≤ 604800 then some (p.1, p.2, d) else best

/-- The inner candidate search of `create_optimal_matching`: closest
available conversation with strict improvement, capped at seven days. -/
def optBest (avail : List (String × ℤ)) (s : ℤ) : Option (String × ℤ × ℤ) :=
  avail.foldl (optBestStep s) none

/-- One survey step of `create_optimal_matching`. -/
def optStep (st : List OptMatch × List (String × ℤ)) (row : SurveyRow) :
    List OptMatch × List (String × ℤ) :=
  match row.startTimeUnix with
  | none => st
  | some s =>
    match optBest st.2 s with
    | none => st
    | some b =>
      (st.1 ++
        [{ responseId := row.responseId, conversationId := b.1, surveyTime := s,
           convTime := b.2.1, timeDiffSeconds := b.2.2, userId := generateUserId s,
           matchMethod := "OptimalTimestamp", matchConfidence := rematchConfidence (b.2.2 : ℚ) }],
       st.2.filter fun p => p.1 ≠ b.1)

/-- The surveys taken by `create_optimal_matching`: every row with a
timestamp (prior assignments are ignored), in ascending timestamp
order. -/
def optSurveys (finalized : List SurveyRow) : List SurveyRow :=
  List.insertionSort (fun a b : SurveyRow => optKeyLeB a.startTimeUnix b.startTimeUnix = true)
    (finalized.filter fun r => r.startTimeUnix ≠ none)

/-- The available pool: valid conversations sorted by creation time. -/
def optAvail (msgs : List ConvMsg) : List (String × ℤ) :=
  List.insertionSort (fun a b : String × ℤ => a.2 ≤ b.2)
    ((validConvDetails msgs).map fun d => (d.conversationId, d.createTime))

/-- Embedding of `create_optimal_matching`: the new match list and the
conversations left over. -/
def createOptimalMatching (finalized : List SurveyRow) (msgs : List ConvMsg) :
    List OptMatch × List (String × ℤ) :=
  (optSurveys finalized).foldl optStep ([], optAvail msgs)

/-! ## Reference resolvers for the refinement claim (C5) -/

/-- All candidate pairs within tolerance.  Modelled from the spec: the
candidate set of the globally-smallest-delta-first reference
algorithm. -/
def allCands (svys convs : List (String × ℤ)) (tol : ℤ) :
    List (String × String × ℤ) :=
  svys.flatMap fun s =>
    convs.filterMap fun c =>
      let d := intAbs (s.2 - c.2)
      if d ≤ tol then some (s.1, c.1, d) else none

/-- Accept candidates in the given order whenever both endpoints are
still free. -/
def greedyAcceptFree (cands : List (String × String × ℤ)) : List (String × String) :=
  cands.foldl
    (fun acc p =>
      if acc.any (fun q => q.1 = p.1 ∨ q.2 = p.2.1) then acc
      else acc ++ [(p.1, p.2.1)])
    []

/-- Modelled from the spec: sort all candidates by `time_delta`
ascending and repeatedly accept the smallest-delta candidate whose two
endpoints are both still free (ties broken by a fixed deterministic
enumeration order, which the spec leaves open). -/
def refSmallestDeltaFirst (svys convs : List (String × ℤ)) (tol : ℤ) :
    List (String × String) :=
  greedyAcceptFree
    (List.insertionSort (fun a b : String × String × ℤ => a.2.2 ≤ b.2.2)
      (allCands svys convs tol))

/-- Specification-style selection of the closest available conversation
within seven days, earliest entry winning ties. -/
def argminFirstQ (s : ℤ) : List (String × ℤ) → Option (String × ℤ × ℤ)
  | [] => none
  | p :: t =>
    let d := intAbs (s - p.2)
    let r := argminFirstQ s t
    if d ≤ 604800 then
      match r with
      | none => some (p.1, p.2, d)
      | some b => if d ≤ b.2.2 then some (p.1, p.2, d) else some b
    else r

/-- One survey step of the survey-major reference resolver. -/
def refStep (st : List OptMatch × List (String × ℤ)) (row : SurveyRow) :
    List OptMatch × List (String × ℤ) :=
  match row.startTimeUnix with
  | none => st
  | some s =>
    match argminFirstQ s st.2 with
    | none => st
    | some b =>
      (st.1 ++
        [{ responseId := row.responseId, conversationId := b.1, surveyTime := s,
           convTime := b.2.1, timeDiffSeconds := b.2.2, userId := generateUserId s,
           matchMethod := "OptimalTimestamp", matchConfidence := rematchConfidence (b.2.2 : ℚ) }],
       st.2.filter fun p => p.1 ≠ b.1)

/-- Survey-major greedy reference: walk the surveys in ascending
timestamp order, each taking its closest still-available conversation
(the behaviour `create_optimal_matching` actually implements). -/
def refPerSurveyGreedy (finalized : List SurveyRow) (msgs : List ConvMsg) :
    List OptMatch × List (String × ℤ) :=
  (optSurveys finalized).foldl refStep ([], optAvail msgs)

/-- Accepted pairs of the code resolver, for comparison with the
reference. -/
def optPairs (finalized : List SurveyRow) (msgs : List ConvMsg) :
    List (String × String) :=
  (createOptimalMatching finalized msgs).1.map fun m => (m.responseId, m.conversationId)

/-! ## `get_participant_id` (create_final_consolidated_dataset.py, lines 59-90)

The consolidation closure threads a `sequence_counter` dict keyed by the
`DDMMYYYY_HHMM` stamp of the survey start date. -/

/-- One row as the consolidation step reads it; `startDate` holds the
parsed `StartDate` as (day, month, year, hour, minute), `none` when the
field is missing or unparseable. -/
structure ConsRow where
  responseId : String
  hasMatch : Bool := false
  userId : Option String := none
  startDate : Option (Int × Int × Int × Int × Int) := none
  matchMethod : Option String := none
  matchConfidence : ℚ := 0
  deriving DecidableEq, Repr

/-- Dict lookup on the counter (first binding wins, as keys are unique
in a Python dict). -/
def lookupC (k : String) (l : List (String × Nat)) : Option Nat :=
  (l.find? fun p => p.1 = k).map fun p => p.2

/-- Dict store on the counter: replace the first binding in place, or
append a new one. -/
def setC (k : String) (v : Nat) : List (String × Nat) → List (String × Nat)
  | [] => [(k, v)]
  | p :: t => if p.1 = k then (k, v) :: t else p :: setC k v t

/-- The `DDMMYYYY_HHMM` base identifier of a parsed start date. -/
def consBaseId (c : Int × Int × Int × Int × Int) : String :=
  pad2 c.1 ++ pad2 c.2.1 ++ toString c.2.2.1 ++ "_" ++ pad2 c.2.2.2.1 ++ pad2 c.2.2.2.2

/-- The last `n` characters of a string (`response_id[-8:]`). -/
def lastN (n : Nat) (s : String) : String :=
  String.mk (s.data.reverse.take n).reverse

/-- Embedding of `get_participant_id`: reuse a matched row's good
`UserID`; otherwise derive `base_seq` from the start date, bumping the
per-base counter; otherwise fall back to the `ResponseId` suffix. -/
def getParticipantId (ctr : List (String × Nat)) (row : ConsRow) :
    String × List (String × Nat) :=
  let generated : String × List (String × Nat) :=
    match row.startDate with
    | some d =>
      let b := consBaseId d
      let n := (lookupC b ctr).getD 0 + 1
      (b ++ "_" ++ toString n, setC b n ctr)
    | none => ("SURVEY_" ++ lastN 8 row.responseId, ctr)
  match row.userId with
  | some u => if row.hasMatch ∧ ¬ u.startsWith "AutoID_" then (u, ctr) else generated
  | none => generated

/-- Thread the counter over the table in row order, producing each
row's `ParticipantID` and the row with `UserID` overwritten by it
(`df['UserID'] = df['ParticipantID']`); `MatchMethod` and
`match_confidence` pass through untouched. -/
def consolidateFrom (ctr : List (String × Nat)) :
    List ConsRow → List (String × ConsRow)
  | [] => []
  | r :: t =>
    ((getParticipantId ctr r).1, { r with userId := some (getParticipantId ctr r).1 }) ::
      consolidateFrom (getParticipantId ctr r).2 t

/-- One full run of the consolidation step, starting from the empty
counter. -/
def consolidateDataset (rows : List ConsRow) : List (String × ConsRow) :=
  consolidateFrom [] rows

/-! ## `convert_qualtrics_time_to_unix` (merge_datasets.py, lines 47-66)

`datetime.strptime(time_str, '%m/%d/%Y %H:%M')` is embedded following
the component regexes CPython's `_strptime` builds for these
directives, including their alternative order; the whitespace in the
format matches one-or-more whitespace characters.  Exceptions become
the `Except` error state; the source wraps the body in a handler that
returns `float('nan')`. -/

/-- Numeric value of a decimal digit character. -/
def digitVal (c : Char) : Nat := c.toNat - '0'.toNat

/-- Candidates for the `%m` directive (`1[0-2]|0[1-9]|[1-9]`), in
alternative order. -/
def monthCands : List Char → List (Nat × List Char)
  | c1 :: c2 :: r =>
    (if c1 = '1' ∧ '0' ≤ c2 ∧ c2 ≤ '2' then [(10 + digitVal c2, r)] else []) ++
    (if c1 = '0' ∧ '1' ≤ c2 ∧ c2 ≤ '9' then [(digitVal c2, r)] else []) ++
    (if '1' ≤ c1 ∧ c1 ≤ '9' then [(digitVal c1, c2 :: r)] else [])
  | [c1] => if '1' ≤ c1 ∧ c1 ≤ '9' then [(digitVal c1, [])] else []
  | [] => []

/-- Candidates for the `%d` directive (`3[01]|[12]\d|0[1-9]|[1-9]`). -/
def dayCands : List Char → List (Nat × List Char)
  | c1 :: c2 :: r =>
    (if c1 = '3' ∧ (c2 = '0' ∨ c2 = '1') then [(30 + digitVal c2, r)] else []) ++
    (if (c1 = '1' ∨ c1 = '2') ∧ c2.isDigit then [(10 * digitVal c1 + digitVal c2, r)] else []) ++
    (if c1 = '0' ∧ '1' ≤ c2 ∧ c2 ≤ '9' then [(digitVal c2, r)] else []) ++
    (if '1' ≤ c1 ∧ c1 ≤ '9' then [(digitVal c1, c2 :: r)] else [])
  | [c1] => if '1' ≤ c1 ∧ c1 ≤ '9' then [(digitVal c1, [])] else []
  | [] => []

/-- Candidates for the `%H` directive (`2[0-3]|[0-1]\d|\d`). -/
def hourCands : List Char → List (Nat × List Char)
  | c1 :: c2 :: r =>
    (if c1 = '2' ∧ '0' ≤ c2 ∧ c2 ≤ '3' then [(20 + digitVal c2, r)] else []) ++
    (if (c1 = '0' ∨ c1 = '1') ∧ c2.isDigit then [(10 * digitVal c1 + digitVal c2, r)] else []) ++
    (if c1.isDigit then [(digitVal c1, c2 :: r)] else [])
  | [c1] => if c1.isDigit then [(digitVal c1, [])] else []
  | [] => []

/-- Candidates for the `%M` directive (`[0-5]\d|\d`). -/
def minuteCands : List Char → List (Nat × List Char)
  | c1 :: c2 :: r =>
    (if '0' ≤ c1 ∧ c1 ≤ '5' ∧ c2.isDigit then [(10 * digitVal c1 + digitVal c2, r)] else []) ++
    (if c1.isDigit then [(digitVal c1, c2 :: r)] else [])
  | [c1] => if c1.isDigit then [(digitVal c1, [])] else []
  | [] => []

/-- Numeric value of a digit run. -/
def digitsToNat (l : List Char) : Nat := l.foldl (fun a c => 10 * a + digitVal c) 0

/-- The anchored regex match for the format `%m/%d/%Y %H:%M`: component
values and the unconsumed remainder. -/
def strptimeRegexMDYHM (s : List Char) :
    Option ((Nat × Nat × Nat × Nat × Nat) × List Char) :=
  firstSome (monthCands s) fun pm =>
  (expectLit ['/'] pm.2).bind fun r1 =>
  firstSome (dayCands r1) fun pd =>
  (expectLit ['/'] pd.2).bind fun r2 =>
  (takeCountDigits 4 r2).bind fun py =>
  let ws := py.2.takeWhile isSpaceC
  if ws.isEmpty then none
  else
    let r3 := py.2.drop ws.length
    firstSome (hourCands r3) fun ph =>
    (expectLit [':'] ph.2).bind fun r4 =>
    firstSome (minuteCands r4) fun pmin =>
    some ((pm.1, pd.1, digitsToNat py.1, ph.1, pmin.1), pmin.2)

/-- Gregorian leap year (the `calendar`/`datetime` rule). -/
def isLeapYear (y : Int) : Bool :=
  (Int.emod y 4 = 0 ∧ Int.emod y 100 ≠ 0) ∨ Int.emod y 400 = 0

/-- Days in a month of a year. -/
def daysInMonth (y m : Int) : Int :=
  if m = 2 then (if isLeapYear y then 29 else 28)
  else if m = 4 ∨ m = 6 ∨ m = 9 ∨ m = 11 then 30
  else 31

/-- The raising body of the conversion: regex mismatch, unconverted
trailing data, and invalid calendar dates (`datetime` constructor) all
raise `ValueError`. -/
def strptimeOrRaise (s : List Char) :
    Except String (Nat × Nat × Nat × Nat × Nat) :=
  match strptimeRegexMDYHM s with
  | none => .error "ValueError: time data does not match format"
  | some (v, rest) =>
    if rest ≠ [] then .error "ValueError: unconverted data remains"
    else if v.2.2.1 = 0 then .error "ValueError: year 0 is out of range"
    else if ¬ ((v.2.1 : Int) ≤ daysInMonth v.2.2.1 v.1) then
      .error "ValueError: day is out of range for month"
    else .ok v

/-- Whether the raising body accepts the string. -/
def strptimeAccepts (s : List Char) : Bool :=
  match strptimeOrRaise s with
  | .ok _ => true
  | .error _ => false

/-- The float value of the source function: a number or `NaN`. -/
inductive QVal where
  | num (q : ℚ)
  | nan
  deriving DecidableEq, Repr

/-- Epoch seconds of a UTC civil minute. -/
def epochOfCivilMin (v : Nat × Nat × Nat × Nat × Nat) : ℚ :=
  ((daysFromCivil v.2.2.1 v.1 v.2.1 * 86400
    + (v.2.2.2.1 : Int) * 3600 + (v.2.2.2.2 : Int) * 60 : Int) : ℚ)

/-- Embedding of `convert_qualtrics_time_to_unix`: the raising body
under the handler that logs and returns `float('nan')`. -/
def convertQualtricsTimeToUnix (s : List Char) : Except String QVal :=
  match strptimeOrRaise s with
  | .ok v => .ok (QVal.num (epochOfCivilMin v))
  | .error _ => .ok QVal.nan

example : convertQualtricsTimeToUnix "12/03/2024 10:30".data
    = .ok (QVal.num 1733221800) := by rfl
example : convertQualtricsTimeToUnix "11/28/2024 2:57".data
    = .ok (QVal.num 1732762620) := by rfl
example : convertQualtricsTimeToUnix "02/30/2024 10:30".data = .ok QVal.nan := by rfl
example : convertQualtricsTimeToUnix "not a date".data = .ok QVal.nan := by rfl

/-! ## Predicates used by the claim statements -/

/-- Word-boundary test on the text preceding a candidate digit run. -/
def preBoundaryOk (pre : List Char) : Bool :=
  match pre.getLast? with
  | none => true
  | some c => ¬ isWordCharB c

/-- The message contains a standalone run of one to four digits: some
decomposition isolates a nonempty digit run of length at most four with
a word boundary on each side. -/
def HasStandaloneDigits (msg : List Char) : Prop :=
  ∃ pre ds post, msg = pre ++ ds ++ post ∧ ds ≠ [] ∧ ds.length ≤ 4 ∧
    (∀ c ∈ ds, c.isDigit = true) ∧ preBoundaryOk pre = true ∧ p5AfterOk post = true

/-! # Theorems -/

/-- The explicit case split agrees with the absolute value. -/
theorem ratAbs_eq (q : ℚ) : ratAbs q = |q| := by
  unfold ratAbs
  split_ifs with h
  · exact (abs_of_neg h).symm
  · exact (abs_of_nonneg (le_of_not_lt h)).symm

/-- The explicit case split agrees with the integer absolute value. -/
theorem intAbs_eq (i : ℤ) : intAbs i = |i| := by
  unfold intAbs
  split_ifs with h
  · exact (abs_of_neg h).symm
  · exact (abs_of_nonneg (le_of_not_lt h)).symm

/-- The numerator-denominator floor division agrees with the floor. -/
theorem ratFloorEqFloor (q : ℚ) : ratFloor q = ⌊q⌋ := by
  unfold ratFloor
  rw [Rat.floor_def]
  exact Int.fdiv_eq_ediv _ (Int.ofNat_nonneg _)

/-! ## Claim C1: the 1:1 invariant of the Match Resolver -/

/-- A produced match always carries the conversation id of the
conversation it was built from. -/
theorem extMatchFor_cid {pool : List SurveyRow} {conv : ConvDetail} {m : ExtMatch}
    (h : extMatchFor pool conv = some m) : m.conversationId = conv.conversationId := by
  unfold extMatchFor at h
  cases hb : bestByDiff pool conv.createTime 172800 with
  | none => rw [hb] at h; cases h
  | some b =>
    rw [hb] at h
    cases h
    rfl

/-- The conversation ids of the produced matches form a sublist of the
input conversation ids. -/
theorem extMatch_cids_sublist (pool : List SurveyRow) (convs : List ConvDetail) :
    ((convs.filterMap (extMatchFor pool)).map (fun m => m.conversationId)).Sublist
      (convs.map (fun c => c.conversationId)) := by
  induction convs with
  | nil => simp
  | cons c t ih =>
    rw [List.filterMap_cons, List.map_cons]
    cases h : extMatchFor pool c with
    | none => exact ih.cons _
    | some m =>
      rw [List.map_cons, extMatchFor_cid h]
      exact ih.cons₂ _

/-- C1 counterexample: on a table with a single unmatched survey
response `R1` and two unmatched conversations one second resp. one
thousand seconds away, `match_by_extended_timestamp` accepts two
distinct matches that both carry `response_id = R1`, because the chosen
survey row is never removed from the pool; the claimed 1:1 property of
the accepted set is false for this input. -/
theorem c1_counterexample :
    (matchByExtendedTimestamp
        [⟨"c1", 1000, "hello".data⟩, ⟨"c2", 2000, "hi".data⟩]
        [{ responseId := "R1", startTimeUnix := some 1000 }]).map
        (fun m => (m.responseId, m.conversationId))
      = [("R1", "c1"), ("R1", "c2")] := by decide

/-- C1 (amended): after the extended-timestamp resolver completes, the
conversation ids of the accepted matches are pairwise distinct whenever
the input conversation ids are (each conversation contributes at most
one match); response ids, however, may repeat. -/
theorem c1_conversation_ids_distinct (convs : List ConvDetail) (finalized : List SurveyRow)
    (h : (convs.map (fun c => c.conversationId)).Nodup) :
    ((matchByExtendedTimestamp convs finalized).map (fun m => m.conversationId)).Nodup :=
  List.Nodup.sublist (extMatch_cids_sublist (extUnmatchedSurveys finalized) convs) h

/-- Witness for the amended C1 theorem at a concrete input. -/
theorem c1_conversation_ids_distinct_witness :
    ((matchByExtendedTimestamp
        [⟨"c1", 1000, "hello".data⟩, ⟨"c2", 2000, "hi".data⟩]
        [{ responseId := "R1", startTimeUnix := some 1000 }]).map
        (fun m => m.conversationId)).Nodup :=
  c1_conversation_ids_distinct
    [⟨"c1", 1000, "hello".data⟩, ⟨"c2", 2000, "hi".data⟩]
    [{ responseId := "R1", startTimeUnix := some 1000 }]
    (by decide)

/-! ## Claim C2: the confidence formula and explicit-identifier matches -/

/-- C2 counterexample: the `clean_dataset` scorer gives an
`ExplicitID`-matched row with a 24-hour gap confidence `90`, not `100`;
and at a gap of ten days the code yields `1` where the claimed clamp
formula (reference scale 864000 seconds) yields `0`. -/
theorem c2_counterexample :
    cleanRowConfidence
        { responseId := "R1", startTimeUnix := some 0, createTime := some 86400,
          conversationId := some "c1", matchMethod := some "ExplicitID",
          hasMatch := true } = 90 ∧
      (90 : ℚ) ≠ 100 ∧
      cleanMatchConfidence (some 0) (some 864000) = 1 ∧
      specClampConfidence 864000 864000 = 0 := by
  refine ⟨?_, by norm_num, ?_, ?_⟩ <;>
    norm_num [cleanRowConfidence, cleanMatchConfidence, specClampConfidence,
      round2, ratFloorEqFloor, ratMax, ratMin, ratAbs, intAbs]

/-- C2 (amended): for gaps of at most 855360 seconds the
`clean_dataset` confidence equals the spec's clamp formula with fixed
reference scale 864000 seconds, for every row and hence for every match
method — explicit-identifier matches included, as the scorer never
consults `MatchMethod`; beyond that gap the code floors at 1 rather
than 0. -/
theorem c2_confidence_formula (row : SurveyRow) (st ct : ℤ)
    (h1 : row.startTimeUnix = some st) (h2 : row.createTime = some ct)
    (h3 : |st - ct| ≤ 855360) :
    cleanRowConfidence row = specClampConfidence ((|st - ct| : ℤ) : ℚ) 864000 := by
  unfold cleanRowConfidence cleanMatchConfidence specClampConfidence
  rw [h1, h2]
  simp only [intAbs_eq]
  set d : ℚ := ((|st - ct| : ℤ) : ℚ) with hd
  have hd0 : (0 : ℚ) ≤ d := by
    rw [hd]
    exact_mod_cast abs_nonneg (st - ct)
  have hdle : d ≤ 855360 := by
    rw [hd]
    exact_mod_cast h3
  have he : 100 * d / 864000 = d / 8640 := by ring
  rw [he]
  have hle : d / 8640 ≤ 99 := by
    rw [div_le_iff₀ (by norm_num : (0 : ℚ) < 8640)]
    linarith
  have hge : (0 : ℚ) ≤ d / 8640 := by positivity
  congr 1
  unfold ratMax ratMin
  split_ifs <;> linarith

/-- Witness for the amended C2 theorem at a concrete row. -/
theorem c2_confidence_formula_witness :
    cleanRowConfidence
        { responseId := "R1", startTimeUnix := some 0, createTime := some 3600,
          matchMethod := some "ExplicitID", hasMatch := true } =
      specClampConfidence ((|(0 : ℤ) - 3600| : ℤ) : ℚ) 864000 :=
  c2_confidence_formula _ 0 3600 rfl rfl (by norm_num)

/-! ## Claim C8: monotonicity and bounds of the confidence function -/

/-- C8 counterexample: the `create_optimal_matching` scorer has no
upper clamp, so a negative delta yields a confidence above 100. -/
theorem c8_counterexample :
    rematchConfidence (-36000) = 110 ∧ ¬ rematchConfidence (-36000) ≤ 100 := by
  constructor <;> norm_num [rematchConfidence, ratMax]

/-- C8 (amended): for the fixed one-hour reference scale the scorer is
monotone non-increasing in the delta over all rational inputs, and its
value lies in `[0, 100]` for every non-negative delta (the only deltas
that arise, all call sites passing an absolute value); negative deltas
exceed 100. -/
theorem c8_confidence_monotone (d1 d2 : ℚ) (h : d1 ≤ d2) :
    rematchConfidence d2 ≤ rematchConfidence d1 ∧
      (0 ≤ d1 → 0 ≤ rematchConfidence d1 ∧ rematchConfidence d1 ≤ 100) := by
  unfold rematchConfidence ratMax
  have hdd : d1 / 3600 ≤ d2 / 3600 := by linarith
  constructor
  · split_ifs <;> linarith
  · intro h0
    have h36 : (0 : ℚ) ≤ d1 / 3600 := by positivity
    constructor
    · split_ifs <;> linarith
    · split_ifs <;> linarith

/-- Witness for the amended C8 theorem at concrete deltas. -/
theorem c8_confidence_monotone_witness :
    rematchConfidence 3600 ≤ rematchConfidence 0 ∧
      0 ≤ rematchConfidence 0 ∧ rematchConfidence 0 ≤ 100 := by
  have h := c8_confidence_monotone 0 3600 (by norm_num)
  exact ⟨h.1, (h.2 le_rfl).1, (h.2 le_rfl).2⟩

/-! ## Claim C9: totality of the timestamp normalizer -/

/-- C9: the timestamp normalizer is total — for every input string it
lands in the handler's `ok` state, carrying epoch seconds exactly when
the raising body accepts the string and the `NaN` sentinel exactly when
it raises; no input escapes as an exception. -/
theorem c9_normalizer_total (s : List Char) :
    ∃ v, convertQualtricsTimeToUnix s = Except.ok v ∧
      (strptimeAccepts s = true → ∃ q, v = QVal.num q) ∧
      (strptimeAccepts s = false → v = QVal.nan) := by
  unfold convertQualtricsTimeToUnix strptimeAccepts
  cases h : strptimeOrRaise s with
  | ok v => exact ⟨QVal.num (epochOfCivilMin v), rfl, fun _ => ⟨_, rfl⟩, fun hc => by simp at hc⟩
  | error e => exact ⟨QVal.nan, rfl, fun hc => by simp at hc, fun _ => rfl⟩

/-- Witness for C9 on a well-formed and on a malformed input. -/
theorem c9_normalizer_total_witness :
    (∃ q, convertQualtricsTimeToUnix "12/03/2024 10:30".data = Except.ok (QVal.num q)) ∧
      convertQualtricsTimeToUnix "02/30/2024 10:30".data = Except.ok QVal.nan := by
  constructor
  · obtain ⟨v, h1, h2, _⟩ := c9_normalizer_total "12/03/2024 10:30".data
    obtain ⟨q, hq⟩ := h2 (by rfl)
    exact ⟨q, hq ▸ h1⟩
  · obtain ⟨v, h1, _, h3⟩ := c9_normalizer_total "02/30/2024 10:30".data
    exact (h3 (by rfl)) ▸ h1

/-! ## Claim C3: range validation in the identifier extractor -/

/-- C3 counterexample: the extractor accepts a standard-format
identifier whose month component is 13 and returns it, where the claim
demands `none`; no pattern in the source validates component ranges. -/
theorem c3_counterexample :
    extractUserIdFromMessage "13132024_1200_Participant5".data
      = some "13132024_1200_Participant5".data := by decide

/-- A fixed-count digit group consumes exactly an all-digit block. -/
theorem takeCountDigits_append (l r : List Char) (h : ∀ c ∈ l, c.isDigit = true) :
    takeCountDigits l.length (l ++ r) = some (l, r) := by
  induction l with
  | nil => rfl
  | cons c t ih =>
    have hc : c.isDigit = true := h c (by simp)
    have ht : ∀ c ∈ t, c.isDigit = true := fun c hc => h c (by simp [hc])
    simp [takeCountDigits, hc, ih ht]

/-- Variant of `takeCountDigits_append` keyed on the numeral. -/
theorem takeCountDigits_exact (n : Nat) (l r : List Char) (hn : l.length = n)
    (h : ∀ c ∈ l, c.isDigit = true) : takeCountDigits n (l ++ r) = some (l, r) := by
  subst hn
  exact takeCountDigits_append l r h

/-- A literal consumes exactly its own text. -/
theorem expectLit_append (l r : List Char) : expectLit l (l ++ r) = some r := by
  induction l with
  | nil => rfl
  | cons c t ih => simp [expectLit, ih]

/-- `takeWhile` keeps an all-digit list whole. -/
theorem takeWhile_digits_self (l : List Char) (h : ∀ c ∈ l, c.isDigit = true) :
    l.takeWhile Char.isDigit = l := by
  induction l with
  | nil => rfl
  | cons c t ih =>
    have hc : c.isDigit = true := h c (by simp)
    have ht : ∀ c ∈ t, c.isDigit = true := fun c hc => h c (by simp [hc])
    simp [List.takeWhile_cons, hc, ih ht]

/-- A matcher hit at the current position is a search hit. -/
theorem scanOpt_of_hit {f : List Char → Option β} {s : List Char} {b : β}
    (h : f s = some b) : scanOpt f s = some b := by
  cases s with
  | nil => simpa [scanOpt] using h
  | cons c r => simp [scanOpt, h]

/-- C3 (amended): the extractor applies no range validation — any text
of the standard shape (two-digit day block, two-digit month block,
four-digit year, four-digit time, nonempty participant number, all
digits) is accepted and returned whole, whatever the component values
are. -/
theorem c3_no_range_validation (day mon yr tm pn : List Char)
    (hd : day.length = 2) (hm : mon.length = 2) (hy : yr.length = 4)
    (ht : tm.length = 4) (hp : pn ≠ [])
    (hdig : ∀ c ∈ day ++ mon ++ yr ++ tm ++ pn, c.isDigit = true) :
    extractUserIdFromMessage
        (day ++ mon ++ yr ++ ['_'] ++ tm ++ ['_'] ++ "Participant".data ++ pn)
      = some (day ++ mon ++ yr ++ ['_'] ++ tm ++ ['_'] ++ "Participant".data ++ pn) := by
  have hdd : ∀ c ∈ day, c.isDigit = true := fun c hc => hdig c (by simp [hc])
  have hmm : ∀ c ∈ mon, c.isDigit = true := fun c hc => hdig c (by simp [hc])
  have hyy : ∀ c ∈ yr, c.isDigit = true := fun c hc => hdig c (by simp [hc])
  have htt : ∀ c ∈ tm, c.isDigit = true := fun c hc => hdig c (by simp [hc])
  have hpp : ∀ c ∈ pn, c.isDigit = true := fun c hc => hdig c (by simp [hc])
  have hit : matchP1At
      (day ++ mon ++ yr ++ ['_'] ++ tm ++ ['_'] ++ "Participant".data ++ pn)
      = some (day ++ mon ++ yr ++ ['_'] ++ tm ++ ['_'] ++ "Participant".data ++ pn) := by
    unfold matchP1At
    rw [show (day ++ mon ++ yr ++ ['_'] ++ tm ++ ['_'] ++ "Participant".data ++ pn)
        = day ++ (mon ++ (yr ++ (['_'] ++ (tm ++ (['_'] ++ ("Participant".data ++ pn))))))
      by simp [List.append_assoc]]
    rw [takeCountDigits_exact 2 day _ hd hdd]
    simp only [Option.some_bind]
    rw [takeCountDigits_exact 2 mon _ hm hmm]
    simp only [Option.some_bind]
    rw [takeCountDigits_exact 4 yr _ hy hyy]
    simp only [Option.some_bind]
    rw [expectLit_append ['_'] _]
    simp only [Option.some_bind]
    rw [takeCountDigits_exact 4 tm _ ht htt]
    simp only [Option.some_bind]
    rw [expectLit_append ['_'] _]
    simp only [Option.some_bind]
    rw [expectLit_append "Participant".data _]
    simp only [Option.some_bind]
    rw [takeWhile_digits_self pn hpp]
    have hpe : pn.isEmpty = false := by
      cases pn with
      | nil => exact absurd rfl hp
      | cons c t => rfl
    simp [hpe, List.append_assoc]
  have hne : (day ++ mon ++ yr ++ ['_'] ++ tm ++ ['_'] ++ "Participant".data ++ pn).isEmpty
      = false := by
    cases day with
    | nil => simp at hd
    | cons c t => rfl
  unfold extractUserIdFromMessage
  rw [hne]
  simp only [Bool.false_eq_true, if_false]
  rw [scanOpt_of_hit hit]

/-- Witness for the amended C3 theorem: month 13 and hour 99 are
accepted unchecked. -/
theorem c3_no_range_validation_witness :
    extractUserIdFromMessage
        ("13".data ++ "13".data ++ "2024".data ++ ['_'] ++ "9999".data ++ ['_'] ++
          "Participant".data ++ "5".data)
      = some ("13".data ++ "13".data ++ "2024".data ++ ['_'] ++ "9999".data ++ ['_'] ++
          "Participant".data ++ "5".data) :=
  c3_no_range_validation "13".data "13".data "2024".data "9999".data "5".data
    rfl rfl rfl rfl (by decide) (by decide)

/-! ## Claim C4: confirmed matches and later phases -/

/-- C4 counterexample: `create_optimal_matching` on a table whose only
row is already matched to `c1` still re-assigns that row, pairing it
with the different conversation `c2`; a later phase does not restrict
itself to still-unmatched responses. -/
theorem c4_counterexample :
    ((createOptimalMatching
        [{ responseId := "R1", startTimeUnix := some 100,
           conversationId := some "c1", hasMatch := true }]
        [{ conversationId := "c2", authorRole := "user", messageContent := "hi",
           createTime := 100 }]).1.map fun m => (m.responseId, m.conversationId))
      = [("R1", "c2")] ∧ ("c1" : String) ≠ "c2" := by
  refine ⟨by decide, by decide⟩

/-! ## Claim C5: the resolver versus globally-smallest-delta-first -/

/-- C5 counterexample: surveys at times 0 and 3, conversations at times
2 and 100.  The code pairs `S1` with `c1`; the
globally-smallest-delta-first reference instead gives `c1` to `S2`
(delta 1) and `c2` to `S1`, so the two assignments differ. -/
theorem c5_counterexample :
    optPairs
        [{ responseId := "S1", startTimeUnix := some 0 },
         { responseId := "S2", startTimeUnix := some 3 }]
        [{ conversationId := "c1", authorRole := "user", messageContent := "hey",
           createTime := 2 },
         { conversationId := "c2", authorRole := "user", messageContent := "yo",
           createTime := 100 }]
      = [("S1", "c1"), ("S2", "c2")] ∧
      refSmallestDeltaFirst [("S1", 0), ("S2", 3)] [("c1", 2), ("c2", 100)] 604800
        = [("S2", "c1"), ("S1", "c2")] ∧
      (("S1", "c1") : String × String) ∉ [(("S2", "c1") : String × String), ("S1", "c2")] := by
  refine ⟨by decide, by decide, by decide⟩

/-! ## Claim C7: exclusion of `login` conversations -/

/-- C7 counterexample: in the `merge_datasets` pipeline a conversation
whose only user message is the literal `login` yields no extractable
identifier, but the timestamp phase still accepts it: the output row is
matched to that conversation with method `Timestamp`. -/
theorem c7_counterexample :
    ((alignMatch [{ responseId := "R1", startTimeUnix := some 1000 }]
        [{ conversationId := "c1", authorRole := "user", messageContent := "login",
           createTime := 1000 }]).map fun r => (r.conversationId, r.matchMethod))
      = [(some "c1", some "Timestamp")] := by decide

/-! ## Claim C6: determinism of the consolidation step -/

/-- Looking a key up after a store: the stored binding answers for its
key, every other key is unaffected. -/
theorem lookupC_setC (k b : String) (n : Nat) (l : List (String × Nat)) :
    lookupC k (setC b n l) = if b = k then some n else lookupC k l := by
  induction l with
  | nil =>
    by_cases hbk : b = k <;> simp [setC, lookupC, List.find?, hbk]
  | cons p t ih =>
    by_cases hpb : p.1 = b
    · by_cases hbk : b = k
      · simp [setC, lookupC, List.find?, hpb, hbk]
      · have hpk : (p.1 = k) = False := by simp [hpb, hbk]
        simp [setC, lookupC, List.find?, hpb, hbk, hpk]
    · by_cases hpk : p.1 = k
      · have hbk : ¬ b = k := fun hh => hpb (hpk.trans hh.symm)
        have hkb : ¬ k = b := fun hh => hbk hh.symm
        simp [setC, lookupC, List.find?, hpb, hpk, hbk, hkb]
      · simp only [setC, hpb, if_false]
        simp only [lookupC, List.find?] at ih ⊢
        simp [hpk, ih]

/-- The participant-id generator respects extensional equality of the
counter state: equal lookups in, equal identifier and equal lookups
out. -/
theorem getParticipantId_congr (r : ConsRow) (s1 s2 : List (String × Nat))
    (h : ∀ k, lookupC k s1 = lookupC k s2) :
    (getParticipantId s1 r).1 = (getParticipantId s2 r).1 ∧
      ∀ k, lookupC k (getParticipantId s1 r).2 = lookupC k (getParticipantId s2 r).2 := by
  unfold getParticipantId
  cases hu : r.userId with
  | some u =>
    by_cases hc : r.hasMatch ∧ ¬ u.startsWith "AutoID_"
    · simp [hc, h]
    · simp only [hc, if_false]
      cases hs : r.startDate with
      | some d =>
        simp only []
        rw [h (consBaseId d)]
        refine ⟨rfl, fun k => ?_⟩
        rw [lookupC_setC, lookupC_setC]
        by_cases hk : consBaseId d = k <;> simp [hk, h k]
      | none => exact ⟨rfl, h⟩
  | none =>
    cases hs : r.startDate with
    | some d =>
      simp only []
      rw [h (consBaseId d)]
      refine ⟨rfl, fun k => ?_⟩
      rw [lookupC_setC, lookupC_setC]
      by_cases hk : consBaseId d = k <;> simp [hk, h k]
    | none => exact ⟨rfl, h⟩

/-- C6: the consolidation step is deterministic across runs — two runs
over the same row table from counter states with identical lookups
(in particular two fresh runs from the empty counter) produce identical
output rows: the same `ParticipantID`, `MatchMethod` and
`match_confidence` for every survey response. -/
theorem c6_consolidation_deterministic (rows : List ConsRow)
    (s1 s2 : List (String × Nat)) (h : ∀ k, lookupC k s1 = lookupC k s2) :
    consolidateFrom s1 rows = consolidateFrom s2 rows := by
  induction rows generalizing s1 s2 with
  | nil => rfl
  | cons r t ih =>
    obtain ⟨hfst, hext⟩ := getParticipantId_congr r s1 s2 h
    unfold consolidateFrom
    rw [hfst, ih _ _ hext]

/-- Witness for C6: two structurally different but extensionally equal
counter states (the second carries a shadowed duplicate binding) give
identical consolidated output on a concrete table. -/
theorem c6_consolidation_deterministic_witness :
    consolidateFrom [("a", 1)]
        [{ responseId := "RB", hasMatch := false, userId := none,
           startDate := some (3, 12, 2024, 10, 30) }]
      = consolidateFrom [("a", 1), ("a", 5)]
        [{ responseId := "RB", hasMatch := false, userId := none,
           startDate := some (3, 12, 2024, 10, 30) }] :=
  c6_consolidation_deterministic _ _ _ (fun k => by
    by_cases hk : ("a" : String) = k <;> simp [lookupC, List.find?, hk])

/-- The strict-improvement loop of the candidate search, started from
any accumulator, computes the earliest minimum of the qualifying
candidates, merged against the accumulator (accumulator winning
ties). -/
theorem optBest_loop_eq (s : ℤ) (l : List (String × ℤ)) :
    ∀ acc, l.foldl (optBestStep s) acc =
      match acc, argminFirstQ s l with
      | none, r => r
      | some b, none => some b
      | some b, some c => if c.2.2 < b.2.2 then some c else some b := by
  induction l with
  | nil => intro acc; cases acc <;> rfl
  | cons p t ih =>
    intro acc
    rw [List.foldl_cons, ih (optBestStep s acc p)]
    cases acc with
    | none =>
      cases hr : argminFirstQ s t with
      | none =>
        simp only [optBestStep, argminFirstQ, hr]
        split_ifs <;> rfl
      | some c =>
        simp only [optBestStep, argminFirstQ, hr]
        split_ifs <;> simp_all <;> omega
    | some b =>
      cases hr : argminFirstQ s t with
      | none =>
        simp only [optBestStep, argminFirstQ, hr]
        by_cases h1 : intAbs (s - p.2) ≤ 604800 <;>
          by_cases h2 : intAbs (s - p.2) < b.2.2 <;>
            simp [h1, h2] <;> (try split_ifs) <;>
              (first | rfl | omega | (intros; exfalso; omega))
      | some c =>
        simp only [optBestStep, argminFirstQ, hr]
        by_cases h1 : intAbs (s - p.2) ≤ 604800 <;>
          by_cases h2 : intAbs (s - p.2) < b.2.2 <;>
            by_cases h3 : intAbs (s - p.2) ≤ c.2.2 <;>
              simp [h1, h2, h3] <;> (try split_ifs) <;>
                (first | rfl | omega | (intros; exfalso; omega))

/-- The code's candidate search equals the specification-style earliest
argmin. -/
theorem optBest_eq_argmin (l : List (String × ℤ)) (s : ℤ) :
    optBest l s = argminFirstQ s l := by
  unfold optBest
  rw [optBest_loop_eq]

/-- C5 (amended): `create_optimal_matching` is survey-major greedy — it
walks the surveys in ascending timestamp order and gives each the
closest still-available conversation within seven days, earliest
candidate winning ties; it coincides with that reference resolver on
every input (though not with globally-smallest-delta-first greedy). -/
theorem c5_resolver_is_survey_major_greedy (finalized : List SurveyRow)
    (msgs : List ConvMsg) :
    createOptimalMatching finalized msgs = refPerSurveyGreedy finalized msgs := by
  unfold createOptimalMatching refPerSurveyGreedy
  have hstep : optStep = refStep := by
    funext st row
    unfold optStep refStep
    cases row.startTimeUnix with
    | none => rfl
    | some s =>
      dsimp only
      rw [optBest_eq_argmin]
  rw [hstep]

/-! ## C4 (amended): the merge timestamp phase only fills unmatched rows -/

/-- Updating one position leaves every other position unchanged. -/
theorem updateAt_get_ne {α : Type} (l : List α) (i j : Nat) (f : α → α) (h : j ≠ i) :
    (updateAt l i f).get? j = l.get? j := by
  induction l generalizing i j with
  | nil => cases i <;> rfl
  | cons a t ih =>
    cases i with
    | zero =>
      cases j with
      | zero => exact absurd rfl h
      | succ j2 => rfl
    | succ i2 =>
      cases j with
      | zero => rfl
      | succ j2 =>
        show (updateAt t i2 f).get? j2 = t.get? j2
        exact ih i2 j2 (fun hh => h (by rw [hh]))

/-- Processing one survey position touches no other row. -/
theorem processOne_get_ne (msgs : List ConvMsg) (st : TState) (i j : Nat) (h : j ≠ i) :
    (processOne msgs st i).rows.get? j = st.rows.get? j := by
  unfold processOne
  rcases h1 : st.rows.get? i with _ | row
  · rfl
  · dsimp only
    rcases h2 : row.startTimeUnix with _ | s
    · rfl
    · dsimp only
      rcases h3 : bestConvByTimes st.convTimes s 86400 with _ | best
      · rfl
      · dsimp only
        exact updateAt_get_ne _ _ _ _ h

/-- Processing a list of positions touches no position outside it. -/
theorem processGroup_get_ne (msgs : List ConvMsg) (idxs : List Nat) (st : TState)
    (j : Nat) (h : j ∉ idxs) :
    (processGroup msgs idxs st).rows.get? j = st.rows.get? j := by
  induction idxs generalizing st with
  | nil => rfl
  | cons i t ih =>
    have hji : j ≠ i := fun hh => h (hh ▸ List.mem_cons_self i t)
    have hjt : j ∉ t := fun hh => h (List.mem_cons_of_mem _ hh)
    show (processGroup msgs t (processOne msgs st i)).rows.get? j = st.rows.get? j
    rw [ih _ hjt]
    exact processOne_get_ne msgs st i j hji

/-- The first pass touches no position outside its session groups. -/
theorem pass1_get_ne (msgs : List ConvMsg) (dedup : List (String × ℤ))
    (sessions : List (Int × List Nat)) (rc : List SurveyRow × List String) (j : Nat)
    (h : ∀ g ∈ sessions, j ∉ g.2) :
    ((sessions.foldl (pass1Group msgs dedup) rc).1).get? j = rc.1.get? j := by
  induction sessions generalizing rc with
  | nil => rfl
  | cons g t ih =>
    rw [List.foldl_cons, ih _ (fun g2 hg2 => h g2 (List.mem_cons_of_mem _ hg2))]
    exact processGroup_get_ne msgs g.2 _ j (h g (List.mem_cons_self _ _))

/-- One grouping step adds only the incoming position to the groups. -/
theorem sessionStep_mem {acc : List (Int × List Nat)} {p : Nat × Option ℤ}
    {g : Int × List Nat} {i : Nat} (hg : g ∈ sessionStep acc p) (hi : i ∈ g.2) :
    (∃ g0 ∈ acc, i ∈ g0.2) ∨ i = p.1 := by
  unfold sessionStep at hg
  rcases hp : p.2 with _ | t
  · rw [hp] at hg
    exact Or.inl ⟨g, hg, hi⟩
  · rw [hp] at hg
    simp only at hg
    split_ifs at hg with hex
    · obtain ⟨g0, hg0, heq⟩ := List.mem_map.mp hg
      by_cases hk : g0.1 = dayKeyOf t
      · rw [if_pos hk] at heq
        rw [← heq] at hi
        rcases List.mem_append.mp hi with h2 | h2
        · exact Or.inl ⟨g0, hg0, h2⟩
        · exact Or.inr (List.mem_singleton.mp h2)
      · rw [if_neg hk] at heq
        exact Or.inl ⟨g0, hg0, heq ▸ hi⟩
    · rcases List.mem_append.mp hg with h2 | h2
      · exact Or.inl ⟨g, h2, hi⟩
      · rw [List.mem_singleton.mp h2] at hi
        exact Or.inr (List.mem_singleton.mp hi)

/-- Every position in a session group comes from the input pairs. -/
theorem sessions_idx_from_pairs (pairs : List (Nat × Option ℤ)) :
    ∀ (acc : List (Int × List Nat)) (g : Int × List Nat) (i : Nat),
      g ∈ pairs.foldl sessionStep acc → i ∈ g.2 →
      (∃ g0 ∈ acc, i ∈ g0.2) ∨ i ∈ pairs.map (fun p => p.1) := by
  induction pairs with
  | nil => exact fun acc g i hg hi => Or.inl ⟨g, hg, hi⟩
  | cons p t ih =>
    intro acc g i hg hi
    rw [List.foldl_cons] at hg
    rcases ih _ _ _ hg hi with ⟨g0, hg0, hi0⟩ | h2
    · rcases sessionStep_mem hg0 hi0 with h3 | h3
      · exact Or.inl h3
      · exact Or.inr (by simp [h3])
    · exact Or.inr (List.mem_cons_of_mem _ h2)

/-- A position grouped by `buildSessions` over the sorted unmatched
pairs is an unmatched position of the table. -/
theorem sessions_idx_unmatched {rows : List SurveyRow} {g : Int × List Nat} {i : Nat}
    (hg : g ∈ buildSessions (sortedUnmatchedPairs rows)) (hi : i ∈ g.2) :
    i ∈ noneCidIdxs rows := by
  rcases sessions_idx_from_pairs _ [] g i hg hi with ⟨g0, hg0, _⟩ | h2
  · exact absurd hg0 (List.not_mem_nil g0)
  · have hperm := (List.perm_insertionSort
      (fun a b : Nat × Option ℤ => optKeyLeB a.2 b.2 = true)
      ((noneCidIdxs rows).map fun i => (i, startAt rows i))).map (fun p => p.1)
    have h3 := hperm.mem_iff.mp h2
    simpa [List.map_map] using h3

/-- C4 (amended): `match_by_timestamp` assigns conversations only to
survey rows that are still unmatched — a row already carrying a
`conversation_id` passes through both phases entirely unchanged, so the
accepted set grows monotonically within the merge pipeline.  (The
re-derivation in `create_optimal_matching` is what violates the
original claim.) -/
theorem c4_timestamp_phase_preserves_matches (rows : List SurveyRow)
    (msgs : List ConvMsg) (convIds : List String) (j : Nat) (r : SurveyRow) (c : String)
    (h1 : rows.get? j = some r) (h2 : r.conversationId = some c) :
    (matchByTimestamp rows msgs convIds).get? j = some r := by
  have hjn : j ∉ noneCidIdxs rows := by
    intro hj
    have hcn := (List.mem_filter.mp hj).2
    unfold cidNoneAt at hcn
    rw [h1] at hcn
    simp [h2] at hcn
  have hpass1 : (mbtPass1 rows msgs convIds).1.get? j = some r := by
    unfold mbtPass1
    rw [pass1_get_ne msgs _ _ _ j
      (fun g hg hi => hjn (sessions_idx_unmatched hg hi))]
    exact h1
  have hjn2 : j ∉ noneCidIdxs (mbtPass1 rows msgs convIds).1 := by
    intro hj
    have hcn := (List.mem_filter.mp hj).2
    unfold cidNoneAt at hcn
    rw [hpass1] at hcn
    simp [h2] at hcn
  unfold matchByTimestamp
  rw [processGroup_get_ne msgs _ _ j hjn2]
  exact hpass1

/-- Witness for the amended C4 theorem: the already-matched row at
position 0 survives the timestamp phase untouched. -/
theorem c4_timestamp_phase_preserves_matches_witness :
    (matchByTimestamp
        [{ responseId := "R0", startTimeUnix := some 50, conversationId := some "cA",
           createTime := some 50, matchMethod := some "ExplicitID", hasMatch := true }]
        [{ conversationId := "cB", authorRole := "user", messageContent := "hello",
           createTime := 50 }]
        ["cA", "cB"]).get? 0
      = some { responseId := "R0", startTimeUnix := some 50, conversationId := some "cA",
               createTime := some 50, matchMethod := some "ExplicitID", hasMatch := true } :=
  c4_timestamp_phase_preserves_matches _ _ _ 0 _ "cA" rfl rfl

/-! ## C7 (amended): validity filtering in `create_optimal_matching` -/

/-- The details record carries the conversation id it was asked for. -/
theorem getConversationDetails_cid {cid : String} {msgs : List ConvMsg} {d : GCDetail}
    (h : getConversationDetails cid msgs = some d) : d.conversationId = cid := by
  unfold getConversationDetails at h
  rcases hf : msgs.filter (fun m => m.conversationId = cid) with _ | ⟨first, rest⟩ <;>
    rw [hf] at h
  · cases h
  · cases h
    rfl

/-- The validity flag stored by `get_conversation_details` reflects the
stored first user message and user-message count. -/
theorem getConversationDetails_isValid {cid : String} {msgs : List ConvMsg} {d : GCDetail}
    (h : getConversationDetails cid msgs = some d) :
    d.isValid = ((match d.firstUserMsg with
      | some f => decide (f ≠ [] ∧ lowerL f ≠ "login".data)
      | none => false) && decide (d.userMsgCount > 0)) := by
  unfold getConversationDetails at h
  rcases hf : msgs.filter (fun m => m.conversationId = cid) with _ | ⟨first, rest⟩ <;>
    rw [hf] at h
  · cases h
  · cases h
    rfl

/-- Membership in the valid-conversation list certifies the details and
the validity flag. -/
theorem validConvDetails_mem {msgs : List ConvMsg} {d : GCDetail}
    (h : d ∈ validConvDetails msgs) :
    getConversationDetails d.conversationId msgs = some d ∧ d.isValid = true := by
  unfold validConvDetails at h
  obtain ⟨cid, _, hd⟩ := List.mem_filterMap.mp h
  rcases hg : getConversationDetails cid msgs with _ | d0
  · rw [hg] at hd
    cases hd
  · rw [hg] at hd
    simp only [Option.some_bind] at hd
    by_cases hv : d0.isValid = true
    · rw [if_pos hv] at hd
      cases hd
      rw [getConversationDetails_cid hg]
      exact ⟨hg, hv⟩
    · rw [if_neg hv] at hd
      cases hd

/-- Membership in the initial available pool comes from a valid
conversation. -/
theorem optAvail_mem {msgs : List ConvMsg} {p : String × ℤ} (h : p ∈ optAvail msgs) :
    ∃ d ∈ validConvDetails msgs, d.conversationId = p.1 ∧ d.createTime = p.2 := by
  unfold optAvail at h
  have h2 := (List.perm_insertionSort (fun a b : String × ℤ => a.2 ≤ b.2)
    ((validConvDetails msgs).map fun d => (d.conversationId, d.createTime))).mem_iff.mp h
  obtain ⟨d, hd, heq⟩ := List.mem_map.mp h2
  exact ⟨d, hd, by rw [← heq], by rw [← heq]⟩

/-- One resolver step never grows the available pool. -/
theorem optStep_avail_sub {st : List OptMatch × List (String × ℤ)} {row : SurveyRow}
    {p : String × ℤ} (h : p ∈ (optStep st row).2) : p ∈ st.2 := by
  unfold optStep at h
  rcases h1 : row.startTimeUnix with _ | s
  · rw [h1] at h
    exact h
  · rw [h1] at h
    dsimp only at h
    rcases h2 : optBest st.2 s with _ | b
    · rw [h2] at h
      exact h
    · rw [h2] at h
      exact (List.mem_filter.mp h).1

/-- The strict-improvement search returns either its accumulator or a
member of the candidate list. -/
theorem optBest_from_list (s : ℤ) (l : List (String × ℤ)) :
    ∀ (acc : Option (String × ℤ × ℤ)) (b : String × ℤ × ℤ),
      l.foldl (optBestStep s) acc = some b → acc = some b ∨ (b.1, b.2.1) ∈ l := by
  induction l with
  | nil => exact fun acc b h => Or.inl h
  | cons p t ih =>
    intro acc b h
    rw [List.foldl_cons] at h
    rcases ih _ _ h with h2 | h2
    · unfold optBestStep at h2
      cases acc with
      | none =>
        dsimp only at h2
        by_cases hq : intAbs (s - p.2) ≤ 604800
        · rw [if_pos hq] at h2
          cases h2
          exact Or.inr (by simp)
        · rw [if_neg hq] at h2
          cases h2
      | some b0 =>
        dsimp only at h2
        by_cases hq : intAbs (s - p.2) < b0.2.2 ∧ intAbs (s - p.2) ≤ 604800
        · rw [if_pos hq] at h2
          cases h2
          exact Or.inr (by simp)
        · rw [if_neg hq] at h2
          exact Or.inl h2
    · exact Or.inr (List.mem_cons_of_mem _ h2)

/-- Every accepted match of the resolver fold points at a conversation
of the current pool (or was already accepted). -/
theorem optFold_matches (svys : List SurveyRow) :
    ∀ (st : List OptMatch × List (String × ℤ)) (m : OptMatch),
      m ∈ (svys.foldl optStep st).1 →
      m ∈ st.1 ∨ ∃ p ∈ st.2, p.1 = m.conversationId := by
  induction svys with
  | nil => exact fun st m h => Or.inl h
  | cons r t ih =>
    intro st m h
    rw [List.foldl_cons] at h
    rcases ih _ _ h with h2 | ⟨p, hp, hpc⟩
    · unfold optStep at h2
      rcases h1 : r.startTimeUnix with _ | s
      · rw [h1] at h2
        exact Or.inl h2
      · rw [h1] at h2
        dsimp only at h2
        rcases hb : optBest st.2 s with _ | b
        · rw [hb] at h2
          exact Or.inl h2
        · rw [hb] at h2
          rcases List.mem_append.mp h2 with h3 | h3
          · exact Or.inl h3
          · rw [List.mem_singleton.mp h3]
            have hmem : (b.1, b.2.1) ∈ st.2 := by
              rcases optBest_from_list s st.2 none b hb with h4 | h4
              · cases h4
              · exact h4
            exact Or.inr ⟨(b.1, b.2.1), hmem, rfl⟩
    · exact Or.inr ⟨p, optStep_avail_sub hp, hpc⟩

/-- C7 (amended): `create_optimal_matching` only ever accepts valid
conversations, and validity excludes a first user message that
lower-cases to the literal `login`; so no `login` conversation id
appears among its accepted matches.  (The `merge_datasets` pipeline has
no such guard — its timestamp phase can accept one.) -/
theorem c7_optimal_matching_excludes_login (finalized : List SurveyRow)
    (msgs : List ConvMsg) (m : OptMatch)
    (h : m ∈ (createOptimalMatching finalized msgs).1) :
    ∃ d, getConversationDetails m.conversationId msgs = some d ∧ d.isValid = true ∧
      ∀ f, d.firstUserMsg = some f → lowerL f ≠ "login".data := by
  unfold createOptimalMatching at h
  rcases optFold_matches _ _ _ h with h2 | ⟨p, hp, hpc⟩
  · exact absurd h2 (List.not_mem_nil m)
  · obtain ⟨d, hd, hdc, _⟩ := optAvail_mem hp
    obtain ⟨hg, hv⟩ := validConvDetails_mem hd
    rw [hdc, hpc] at hg
    refine ⟨d, hg, hv, fun f hf hlog => ?_⟩
    rw [getConversationDetails_isValid hg, hf] at hv
    rw [Bool.and_eq_true] at hv
    exact (of_decide_eq_true hv.1).2 hlog

/-- The one-message table used by the C7 witness. -/
def c7WitnessMsgs : List ConvMsg :=
  [{ conversationId := "cX", authorRole := "user", messageContent := "saluton",
     createTime := 75 }]

/-- Witness for the amended C7 theorem at a concrete accepted match. -/
theorem c7_optimal_matching_excludes_login_witness :
    ∃ d, getConversationDetails "cX" c7WitnessMsgs = some d ∧ d.isValid = true ∧
      ∀ f, d.firstUserMsg = some f → lowerL f ≠ "login".data :=
  c7_optimal_matching_excludes_login
    [{ responseId := "RX", startTimeUnix := some 75 }]
    c7WitnessMsgs
    { responseId := "RX", conversationId := "cX", surveyTime := 75, convTime := 75,
      timeDiffSeconds := 0, userId := generateUserId 75,
      matchMethod := "OptimalTimestamp", matchConfidence := rematchConfidence ((0 : ℤ) : ℚ) }
    (List.mem_singleton_self _)

/-! ## Claim C10: the final fallback and standalone digit groups -/

/-- A digit is a word character. -/
theorem digit_isWordChar {c : Char} (h : c.isDigit = true) : isWordCharB c = true := by
  unfold isWordCharB
  have h2 : c.isAlphanum = true := by
    unfold Char.isAlphanum
    rw [h, Bool.or_true]
  simp [h2]

/-- A non-word character is not a digit. -/
theorem not_word_not_digit {c : Char} (h : isWordCharB c = false) : c.isDigit = false := by
  rcases hd : c.isDigit with _ | _
  · rfl
  · rw [digit_isWordChar hd] at h
    cases h

/-- `takeWhile` stops exactly at the end of an all-digit block when the
continuation starts with a non-digit. -/
theorem takeWhile_digits_append (ds post : List Char) (hds : ∀ c ∈ ds, c.isDigit = true)
    (hpost : ∀ c, post.head? = some c → c.isDigit = false) :
    (ds ++ post).takeWhile Char.isDigit = ds := by
  induction ds with
  | nil =>
    cases post with
    | nil => rfl
    | cons c t =>
      have hc := hpost c rfl
      simp [List.takeWhile_cons, hc]
  | cons c t ih =>
    have hc : c.isDigit = true := hds c (by simp)
    have ht : ∀ c ∈ t, c.isDigit = true := fun c hc2 => hds c (by simp [hc2])
    simp [List.takeWhile_cons, hc, ih ht]

/-- Pattern 5 hits at the start of a standalone digit group. -/
theorem p5TryAt_hit (prev : Option Char) (ds post : List Char)
    (hne : ds ≠ []) (hlen : ds.length ≤ 4) (hds : ∀ c ∈ ds, c.isDigit = true)
    (hpost : p5AfterOk post = true) (hprev : p5PrevOk prev = true) :
    p5TryAt prev (ds ++ post) = some ds := by
  have hpostd : ∀ c, post.head? = some c → c.isDigit = false := by
    intro c hc
    cases post with
    | nil => cases hc
    | cons c2 t =>
      injection hc with hc2
      have hw : isWordCharB c2 = false :=
        Bool.eq_false_iff.mpr (of_decide_eq_true hpost)
      rw [← hc2]
      exact not_word_not_digit hw
  unfold p5TryAt
  rw [if_pos hprev, takeWhile_digits_append ds post hds hpostd,
    Nat.min_eq_right hlen]
  obtain ⟨k, hk⟩ : ∃ k, ds.length = k + 1 := by
    cases ds with
    | nil => exact absurd rfl hne
    | cons c t => exact ⟨t.length, rfl⟩
  have htake : (ds ++ post).take (k + 1) = ds := by
    rw [← hk]
    exact List.take_left ds post
  have hdrop : (ds ++ post).drop (k + 1) = post := by
    rw [← hk]
    exact List.drop_left ds post
  rw [hk]
  simp only [p5TryLens, htake, hdrop]
  rw [if_pos ⟨hk, List.all_eq_true.mpr hds, hpost⟩]

/-- The pattern-5 scanner succeeds whenever a standalone digit group
exists to its right, given a consistent left context. -/
theorem scanP5_finds (pre : List Char) :
    ∀ (prev : Option Char) (ds post : List Char),
      ds ≠ [] → ds.length ≤ 4 → (∀ c ∈ ds, c.isDigit = true) → p5AfterOk post = true →
      (match pre.getLast? with
       | some c => isWordCharB c = false
       | none => p5PrevOk prev = true) →
      (scanP5 prev (pre ++ (ds ++ post))).isSome = true := by
  induction pre with
  | nil =>
    intro prev ds post hne hlen hds hpost hctx
    have hctx2 : p5PrevOk prev = true := hctx
    have hit := p5TryAt_hit prev ds post hne hlen hds hpost hctx2
    obtain ⟨d, ds2, rfl⟩ : ∃ d ds2, ds = d :: ds2 := by
      cases ds with
      | nil => exact absurd rfl hne
      | cons d ds2 => exact ⟨d, ds2, rfl⟩
    rw [List.nil_append]
    show (scanP5 prev (d :: (ds2 ++ post))).isSome = true
    unfold scanP5
    rw [show (d :: ds2) ++ post = d :: (ds2 ++ post) from rfl] at hit
    rw [hit]
    rfl
  | cons c pre2 ih =>
    intro prev ds post hne hlen hds hpost hctx
    show (scanP5 prev (c :: (pre2 ++ (ds ++ post)))).isSome = true
    unfold scanP5
    cases htry : p5TryAt prev (c :: (pre2 ++ (ds ++ post))) with
    | some r => rfl
    | none =>
      apply ih (some c) ds post hne hlen hds hpost
      cases pre2 with
      | nil =>
        have hctx2 : isWordCharB c = false := hctx
        show p5PrevOk (some c) = true
        unfold p5PrevOk
        simp [hctx2]
      | cons c2 t2 =>
        rw [List.getLast?_cons_cons] at hctx
        rcases hgl : (c2 :: t2).getLast? with _ | cl
        · rw [List.getLast?_eq_none_iff] at hgl
          cases hgl
        · rw [hgl] at hctx
          exact hctx

/-- C10: the extractor's final fallback accepts any standalone one-to-
four-digit group, so extraction returns some identifier for every
message containing one; `none` is possible only for messages matching
no pattern at all. -/
theorem c10_fallback_accepts_standalone_digits (msg : List Char)
    (h : HasStandaloneDigits msg) : (extractUserIdFromMessage msg).isSome = true := by
  obtain ⟨pre, ds, post, rfl, hne, hlen, hds, hpre, hpost⟩ := h
  have hempty : (pre ++ ds ++ post).isEmpty = false := by
    rcases pre with _ | ⟨c, t⟩
    · rcases ds with _ | ⟨d, t2⟩
      · exact absurd rfl hne
      · rfl
    · rfl
  unfold extractUserIdFromMessage
  rw [hempty]
  simp only [Bool.false_eq_true, if_false]
  rcases h1 : scanOpt matchP1At (pre ++ ds ++ post) with _ | r1
  · rcases h2 : scanOpt matchP2At (pre ++ ds ++ post) with _ | r2
    · rcases h3 : scanOpt matchP3At (pre ++ ds ++ post) with _ | r3
      · rcases h4 : scanOpt matchP4At (pre ++ ds ++ post) with _ | r4
        · dsimp only
          rw [List.append_assoc]
          apply scanP5_finds pre none ds post hne hlen hds hpost
          rcases hgl : pre.getLast? with _ | cl
          · rfl
          · have := hpre
            unfold preBoundaryOk at this
            rw [hgl] at this
            exact Bool.eq_false_iff.mpr (of_decide_eq_true this)
        · rfl
      · rfl
    · rfl
  · rfl

/-- Witness for C10 on the message consisting of the standalone number
21 alone. -/
theorem c10_fallback_accepts_standalone_digits_witness :
    (extractUserIdFromMessage "21".data).isSome = true :=
  c10_fallback_accepts_standalone_digits "21".data
    ⟨[], ['2', '1'], [], by decide, by decide, by decide, by decide, rfl, rfl⟩

end Esperanto
